import Mathlib

/-!
Verification of the `diffs` tool (src/main.rs): a shallow embedding of its
pure core — the ticket reference parser `get_differential_revision`, the
review status table parser `get_arc_info`, and the branch diff resolver
`get_branch_diffs` — together with proofs of the specified properties.

The embedding works over `String` viewed as its list of characters.
Character classes are the ASCII readings of the Rust predicates
(`\w`, `\d`, `is_ascii_digit`, whitespace), which agree with the Rust
behaviour on all ASCII input.
-/

/-- Rust `str::trim` on a character list: drop whitespace from both ends. -/
def trimChars (cs : List Char) : List Char :=
  ((cs.dropWhile Char.isWhitespace).reverse.dropWhile Char.isWhitespace).reverse

/-- Rust `str::trim` on a `String`. -/
def trimStr (s : String) : String :=
  ⟨trimChars s.data⟩

/-- Rust `str::strip_prefix` on character lists: `some rest` when the first
list is `pre ++ rest`, `none` otherwise. -/
def dropPre : List Char → List Char → Option (List Char)
  | [], cs => some cs
  | _ :: _, [] => none
  | p :: ps, c :: cs => if p = c then dropPre ps cs else none

/-- Rust `str::strip_prefix` on `String`s. -/
def dropPreStr (pre s : String) : Option String :=
  (dropPre pre.data s.data).map fun cs => ⟨cs⟩

/-- A parsed absolute URL, as produced by the external `url` crate:
scheme, host, path, and the optional query and fragment. -/
structure Url where
  scheme : String
  host : String
  path : String
  query : Option String
  fragment : Option String
deriving Repr, DecidableEq

/-- Split a character list at the first occurrence of the delimiter `d`:
`(before, some after)` when `d` occurs, `(cs, none)` otherwise. -/
def splitAtChar (d : Char) : List Char → List Char × Option (List Char)
  | [] => ([], none)
  | c :: cs =>
    if c = d then ([], some cs)
    else
      let r := splitAtChar d cs
      (c :: r.1, r.2)

/-- A scheme character after the first: ASCII alphanumeric, `+`, `-` or `.`. -/
def isSchemeChar (c : Char) : Bool :=
  c.isAlphanum || c = '+' || c = '-' || c = '.'

/-- A host character: ASCII alphanumeric, `-`, `.` or `_`. -/
def isHostChar (c : Char) : Bool :=
  c.isAlphanum || c = '-' || c = '.' || c = '_'

/-- Modelled from the spec: the absolute-URL parser of the external `url`
crate (`Url::parse`, a WHATWG parser; not part of this repository's source),
restricted to hierarchical `scheme://host...` URLs over ASCII: a scheme
(letter first, then scheme characters) followed by `://`, a non-empty host,
then an optional `/`-path, `?`-query and `#`-fragment; a missing path is the
root path `/`. Any other shape is a parse failure. -/
def Url.parse (s : String) : Option Url :=
  match s.data with
  | [] => none
  | c :: rest =>
    if c.isAlpha then
      let schemeRest := rest.takeWhile isSchemeChar
      match rest.drop schemeRest.length with
      | ':' :: '/' :: '/' :: afterSlashes =>
        let host := afterSlashes.takeWhile isHostChar
        if host.isEmpty then none
        else
          match afterSlashes.drop host.length with
          | [] => some ⟨⟨c :: schemeRest⟩, ⟨host⟩, "/", none, none⟩
          | d :: ds =>
            if d = '/' ∨ d = '?' ∨ d = '#' then
              let fr := splitAtChar '#' (d :: ds)
              let qr := splitAtChar '?' fr.1
              some ⟨⟨c :: schemeRest⟩, ⟨host⟩,
                if qr.1.isEmpty then "/" else ⟨qr.1⟩,
                qr.2.map fun q => ⟨q⟩, fr.2.map fun f => ⟨f⟩⟩
            else none
      | _ => none
    else none

/-- Embedding of `get_differential_revision` (src/main.rs): if the line is
`Differential Revision:<url>` where the trimmed `<url>` parses as an absolute
URL whose path is `/D` followed by ASCII digits, return the path with its
leading slash removed. -/
def get_differential_revision (line : String) : Option String :=
  match dropPreStr "Differential Revision:" line with
  | none => none
  | some url_str =>
    match Url.parse (trimStr url_str) with
    | none => none
    | some url =>
      match dropPreStr "/D" url.path with
      | none => none
      | some diff_number =>
        if diff_number.data.all Char.isDigit then some ⟨url.path.data.drop 1⟩
        else none

/-- The review metadata for one ticket, as in `struct ArcInfo` (src/main.rs):
the existence marker, the status label, and the summary. -/
structure ArcInfo where
  exists_flag : Bool
  status : String
  summary : String
deriving Repr, DecidableEq

/-- The hard parse failure of the review status table parser, carrying the
offending line (the `anyhow` error built in `get_arc_info`). -/
structure TableParseError where
  line : String
deriving Repr, DecidableEq

/-- A `\w` character (ASCII reading): alphanumeric or underscore. -/
def isWordChar (c : Char) : Bool :=
  c.isAlphanum || c = '_'

/-- A character of the status capture `[\w ]`: a word character or a space. -/
def isStatusChar (c : Char) : Bool :=
  isWordChar c || c = ' '

/-- The fixed tail of the row pattern, ` (D\d+): (.*)$`: a space, a ticket
identifier `D` followed by one or more digits (greedy), then `: ` and the
summary, which runs to the end of the line and may not contain a newline
(the regex `.` does not match `\n`). Returns the ticket-id and summary
captures. -/
def tryTail : List Char → Option (List Char × List Char)
  | ' ' :: 'D' :: rest =>
    let ds := rest.takeWhile Char.isDigit
    match ds with
    | [] => none
    | _ :: _ =>
      match rest.drop ds.length with
      | ':' :: ' ' :: su => if su.contains '\n' then none else some ('D' :: ds, su)
      | _ => none
  | _ => none

/-- Backtracking loop of the greedy status capture `([\w ]+)`: `arev` is the
current candidate capture reversed, `rest` the remaining input. Try the tail
pattern after the candidate; on failure move the candidate's last character
back onto the input and retry, preferring the longest capture, exactly as
the regex engine does. -/
def shrink : List Char → List Char → Option (List Char × List Char × List Char)
  | [], _ => none
  | c :: arev, rest =>
    match tryTail rest with
    | some r => some ((c :: arev).reverse, r.1, r.2)
    | none => shrink arev (c :: rest)

/-- The row pattern after the optional marker, `([\w ]+) (D\d+): (.*)$`:
take the maximal run of status characters and backtrack it greedily against
the tail pattern. Returns the status, ticket-id and summary captures. -/
def matchSDS (cs : List Char) : Option (List Char × List Char × List Char) :=
  let run := cs.takeWhile isStatusChar
  shrink run.reverse (cs.drop run.length)

/-- The optional leading marker `(\* )?` of the row pattern: `some rest`
when the line starts with `* `. -/
def markerSplit : List Char → Option (List Char)
  | c1 :: c2 :: rest => if c1 = '*' ∧ c2 = ' ' then some rest else none
  | _ => none

/-- The full anchored row pattern of `get_arc_info`,
`^(\* )?([\w ]+) (D\d+): (.*)$`: the optional leading marker `* ` is tried
greedily (with the marker first, then without). Returns the four captures:
marker presence, status, ticket id, summary. -/
def matchRow (cs : List Char) : Option (Bool × List Char × List Char × List Char) :=
  match markerSplit cs with
  | some rest =>
    match matchSDS rest with
    | some r => some (true, r)
    | none => (matchSDS cs).map fun r => (false, r)
  | none => (matchSDS cs).map fun r => (false, r)

/-- The captures of the row regex on one line of `arc list` output, as
`String`s. -/
def rowCaptures (line : String) : Option (Bool × String × String × String) :=
  match matchRow line.data with
  | some (ex, st, d, su) => some (ex, ⟨st⟩, ⟨d⟩, ⟨su⟩)
  | none => none

/-- Insertion into the ticket map with the overwrite semantics of
`HashMap::insert`: replace the entry of an existing key, otherwise add the
new entry. The map is modelled as an association list; the maps built by
`get_arc_info` never hold a key twice, so replacing the first occurrence is
the overwrite. -/
def insertAssoc : List (String × ArcInfo) → String → ArcInfo →
    List (String × ArcInfo)
  | [], key, v => [(key, v)]
  | p :: m, key, v =>
    if p.1 = key then (key, v) :: m else p :: insertAssoc m key v

/-- The `collect::<Result<HashMap<_, _>, _>>()` loop of `get_arc_info`:
each line must match the row pattern; its captures (status and summary
trimmed) are inserted under the ticket id; the first non-matching line
aborts with a `TableParseError` carrying that line. -/
def collectRows : List String → List (String × ArcInfo) →
    Except TableParseError (List (String × ArcInfo))
  | [], acc => .ok acc
  | line :: rest, acc =>
    match rowCaptures line with
    | none => .error ⟨line⟩
    | some (ex, st, d, su) =>
      collectRows rest (insertAssoc acc d ⟨ex, trimStr st, trimStr su⟩)

/-- Embedding of `get_arc_info` (src/main.rs) on the line list produced by
`arc_list` (the `arc list` output, ASCII-trimmed and split into lines): the
single sentinel line yields the empty map, otherwise every line is parsed
as a table row. -/
def get_arc_info (lines : List String) :
    Except TableParseError (List (String × ArcInfo)) :=
  if lines = ["You have no open Differential revisions."] then .ok []
  else collectRows lines []

/-- Lookup in the ticket map. -/
def lookupA : List (String × ArcInfo) → String → Option ArcInfo
  | [], _ => none
  | p :: m, key => if p.1 = key then some p.2 else lookupA m key

/-- Number of entries of the ticket map holding the given key. -/
def countKey : List (String × ArcInfo) → String → Nat
  | [], _ => 0
  | p :: m, key => (if p.1 = key then 1 else 0) + countKey m key

/-- Embedding of the pure core of `get_branch_diffs` (src/main.rs): the
commit-body lines for `merge_base..branch`, in the newest-first order
produced by `get_commit_bodies`, are reversed and each line is run through
the ticket reference parser, keeping the matches. -/
def get_branch_diffs (bodies : List String) : List String :=
  bodies.reverse.filterMap get_differential_revision

/-- Spec-side condition of the ticket-parser claim, following its words:
the line begins with the exact annotation prefix, the remainder after
trimming parses as an absolute URL, and that URL's path component is
exactly `/D` followed by one or more ASCII digits and nothing else. -/
def specTicketCond (line : String) : Bool :=
  match dropPreStr "Differential Revision:" line with
  | none => false
  | some url_str =>
    match Url.parse (trimStr url_str) with
    | none => false
    | some url =>
      match url.path.data with
      | '/' :: 'D' :: ds => !ds.isEmpty && ds.all Char.isDigit
      | _ => false

/-- The amended spec-side condition: as `specTicketCond`, but the path is
`/D` followed by zero or more ASCII digits and nothing else. -/
def specTicketCondZero (line : String) : Bool :=
  match dropPreStr "Differential Revision:" line with
  | none => false
  | some url_str =>
    match Url.parse (trimStr url_str) with
    | none => false
    | some url =>
      match url.path.data with
      | '/' :: 'D' :: ds => ds.all Char.isDigit
      | _ => false

/-- The ticket extraction applied to a URL path alone: `/D` stripped, the
rest all digits, the path without its leading slash returned. -/
def pathTicket (p : String) : Option String :=
  match dropPreStr "/D" p with
  | none => none
  | some diff_number =>
    if diff_number.data.all Char.isDigit then some ⟨p.data.drop 1⟩ else none

/-- Whether a table line carries the leading `* ` marker. -/
def hasMarker (line : String) : Bool :=
  (markerSplit line.data).isSome

/-- The row entry the last line carrying the given ticket id contributes:
scanning from the end, the trimmed captures of the last line whose ticket-id
capture is `key`. -/
def lastEntryFor (key : String) : List String → Option ArcInfo
  | [] => none
  | line :: rest =>
    match lastEntryFor key rest with
    | some v => some v
    | none =>
      match rowCaptures line with
      | some (ex, st, d, su) =>
        if d = key then some ⟨ex, trimStr st, trimStr su⟩ else none
      | none => none

/-- `dropPre` succeeds exactly on lists extending the prefix. -/
lemma dropPre_eq_some {pre cs r : List Char} :
    dropPre pre cs = some r ↔ cs = pre ++ r := by
  induction pre generalizing cs with
  | nil => simp [dropPre]
  | cons p ps ih =>
    cases cs with
    | nil => simp [dropPre]
    | cons c cs' =>
      by_cases h : p = c
      · subst h
        simp [dropPre, ih]
      · simp [dropPre, h, Ne.symm h]

/-- `dropPreStr` succeeds exactly on strings extending the prefix. -/
lemma dropPreStr_eq_some {pre s r : String} :
    dropPreStr pre s = some r ↔ s.data = pre.data ++ r.data := by
  rw [← dropPre_eq_some]
  unfold dropPreStr
  cases h : dropPre pre.data s.data with
  | none => simp
  | some cs =>
    simp only [Option.map_some', Option.some.injEq]
    cases r with
    | mk rd =>
      constructor
      · intro hh
        exact congrArg String.data hh
      · intro hh
        rw [hh]

/-- A successful `markerSplit` means the line started with the marker. -/
lemma markerSplit_eq_some {cs rest : List Char}
    (h : markerSplit cs = some rest) : cs = '*' :: ' ' :: rest := by
  cases cs with
  | nil => simp [markerSplit] at h
  | cons c1 cs1 =>
    cases cs1 with
    | nil => simp [markerSplit] at h
    | cons c2 rest' =>
      by_cases hm : c1 = '*' ∧ c2 = ' '
      · obtain ⟨h1, h2⟩ := hm
        subst h1
        subst h2
        simp [markerSplit] at h
        subst h
        rfl
      · simp [markerSplit, hm] at h

/-- The status capture cannot start at a `*`, so the fallback branch of the
row pattern never matches a marker-bearing line. -/
lemma matchSDS_star (l : List Char) : matchSDS ('*' :: l) = none := by
  have h : isStatusChar '*' = false := by decide
  simp [matchSDS, List.takeWhile_cons, h, shrink]

/-- The existence capture of the row pattern is exactly the marker test. -/
lemma matchRow_fst {cs : List Char} {ex : Bool} {st d su : List Char}
    (h : matchRow cs = some (ex, st, d, su)) : ex = (markerSplit cs).isSome := by
  unfold matchRow at h
  cases hm : markerSplit cs with
  | none =>
    rw [hm] at h
    simp only [Option.map_eq_some'] at h
    obtain ⟨r, _, heq⟩ := h
    cases heq
    rfl
  | some rest =>
    rw [hm] at h
    have hcs : cs = '*' :: ' ' :: rest := markerSplit_eq_some hm
    cases hs : matchSDS rest with
    | some r =>
      simp only [hs] at h
      cases h
      rfl
    | none =>
      simp [hs, hcs, matchSDS_star] at h

/-- The existence flag of a parsed row is exactly the marker test. -/
lemma rowCaptures_fst {line : String} {ex : Bool} {st d su : String}
    (h : rowCaptures line = some (ex, st, d, su)) : ex = hasMarker line := by
  unfold rowCaptures at h
  cases hm : matchRow line.data with
  | none =>
    rw [hm] at h
    cases h
  | some r =>
    obtain ⟨ex', st', d', su'⟩ := r
    rw [hm] at h
    cases h
    exact matchRow_fst hm

/-- Looking up the key just inserted yields the inserted value. -/
lemma lookupA_insert_self (m : List (String × ArcInfo)) (k : String) (v : ArcInfo) :
    lookupA (insertAssoc m k v) k = some v := by
  induction m with
  | nil => simp [insertAssoc, lookupA]
  | cons p m ih =>
    by_cases h : p.1 = k
    · simp [insertAssoc, h, lookupA]
    · simp [insertAssoc, h, lookupA, ih]

/-- Insertion does not disturb the binding of any other key. -/
lemma lookupA_insert_other {k key : String} (hk : key ≠ k)
    (m : List (String × ArcInfo)) (v : ArcInfo) :
    lookupA (insertAssoc m k v) key = lookupA m key := by
  induction m with
  | nil => simp [insertAssoc, lookupA, Ne.symm hk]
  | cons p m ih =>
    by_cases h : p.1 = k
    · have hp : ¬ p.1 = key := by
        rw [h]
        exact Ne.symm hk
      simp [insertAssoc, h, lookupA, hp, Ne.symm hk]
    · by_cases hp : p.1 = key
      · have hkk : ¬ key = k := fun hc => h (hp.trans hc)
        simp [insertAssoc, h, lookupA, hp, hkk]
      · simp [insertAssoc, h, lookupA, hp, ih]

/-- Insertion does not change the entry count of any other key. -/
lemma countKey_insert_other {k key : String} (hk : key ≠ k)
    (m : List (String × ArcInfo)) (v : ArcInfo) :
    countKey (insertAssoc m k v) key = countKey m key := by
  induction m with
  | nil => simp [insertAssoc, countKey, Ne.symm hk]
  | cons p m ih =>
    by_cases h : p.1 = k
    · have hp : ¬ p.1 = key := by
        rw [h]
        exact Ne.symm hk
      simp [insertAssoc, h, countKey, hp, Ne.symm hk]
    · simp [insertAssoc, h, countKey, ih]

/-- A key counted zero times has no binding. -/
lemma lookupA_eq_none_of_countKey_zero {m : List (String × ArcInfo)} {key : String}
    (h : countKey m key = 0) : lookupA m key = none := by
  induction m with
  | nil => rfl
  | cons p m ih =>
    by_cases hp : p.1 = key
    · simp [countKey, hp] at h
    · simp [countKey, hp] at h
      simp [lookupA, hp, ih h]

/-- Insertion preserves the shape invariant of the maps `get_arc_info`
builds: every key is bound exactly as often as a lookup finds it, so never
twice. -/
lemma countKey_lookupA_insert (m : List (String × ArcInfo)) (k : String) (v : ArcInfo)
    (h : ∀ key, countKey m key = if (lookupA m key).isSome then 1 else 0) :
    ∀ key, countKey (insertAssoc m k v) key =
      if (lookupA (insertAssoc m k v) key).isSome then 1 else 0 := by
  induction m with
  | nil =>
    intro key
    by_cases hk : k = key
    · simp [insertAssoc, countKey, lookupA, hk]
    · simp [insertAssoc, countKey, lookupA, hk]
  | cons p m ih =>
    have hm : ∀ key, countKey m key = if (lookupA m key).isSome then 1 else 0 := by
      intro key
      have hpk := h key
      by_cases hp : p.1 = key
      · simp [countKey, lookupA, hp] at hpk
        have h0 : countKey m key = 0 := by omega
        rw [h0, lookupA_eq_none_of_countKey_zero h0]
        rfl
      · simpa [countKey, lookupA, hp] using hpk
    intro key
    by_cases hpk : p.1 = k
    · by_cases hk : k = key
      · subst hk
        have hc := h k
        simp [countKey, lookupA, hpk] at hc
        have h0 : countKey m k = 0 := by omega
        simp [insertAssoc, hpk, countKey, lookupA, h0]
      · simp [insertAssoc, hpk, countKey, lookupA, hk, hm key]
    · by_cases hp : p.1 = key
      · have hkne : key ≠ k := by
          intro hc
          exact hpk (hp.trans hc)
        have hc := h key
        simp [countKey, lookupA, hp] at hc
        have h0 : countKey m key = 0 := by omega
        simp [insertAssoc, hpk, countKey, lookupA, hp, hkne,
          countKey_insert_other hkne, h0]
      · simp [insertAssoc, hpk, countKey, lookupA, hp, ih hm key]

/-- `collectRows` preserves the shape invariant of the map. -/
lemma collectRows_shape (lines : List String) :
    ∀ acc m, collectRows lines acc = .ok m →
      (∀ key, countKey acc key = if (lookupA acc key).isSome then 1 else 0) →
      ∀ key, countKey m key = if (lookupA m key).isSome then 1 else 0 := by
  induction lines with
  | nil =>
    intro acc m h hacc
    simp [collectRows] at h
    subst h
    exact hacc
  | cons line rest ih =>
    intro acc m h hacc
    cases hc : rowCaptures line with
    | none => simp [collectRows, hc] at h
    | some c =>
      obtain ⟨ex, st, d, su⟩ := c
      simp only [collectRows, hc] at h
      exact ih _ _ h (countKey_lookupA_insert _ _ _ hacc)

/-- After `collectRows`, a key's binding is the entry of the last line that
wrote it, falling back to the accumulator's binding. -/
lemma collectRows_lookup (lines : List String) :
    ∀ acc m key, collectRows lines acc = .ok m →
      lookupA m key = (lastEntryFor key lines).or (lookupA acc key) := by
  induction lines with
  | nil =>
    intro acc m key h
    simp [collectRows] at h
    subst h
    simp [lastEntryFor, Option.or]
  | cons line rest ih =>
    intro acc m key h
    cases hc : rowCaptures line with
    | none => simp [collectRows, hc] at h
    | some c =>
      obtain ⟨ex, st, d, su⟩ := c
      simp only [collectRows, hc] at h
      rw [ih _ _ key h]
      cases hl : lastEntryFor key rest with
      | some v' => simp [lastEntryFor, hl, hc, Option.or]
      | none =>
        by_cases hd : d = key
        · subst hd
          simp [lastEntryFor, hl, hc, Option.or, lookupA_insert_self]
        · simp [lastEntryFor, hl, hc, Option.or, hd,
            lookupA_insert_other (Ne.symm hd)]

/-- When every line matches the row pattern, `collectRows` succeeds. -/
lemma collectRows_ok (lines : List String)
    (h : ∀ l ∈ lines, (rowCaptures l).isSome) :
    ∀ acc, ∃ m, collectRows lines acc = .ok m := by
  induction lines with
  | nil =>
    intro acc
    exact ⟨acc, rfl⟩
  | cons line rest ih =>
    intro acc
    have hl : (rowCaptures line).isSome := h line (by simp)
    cases hc : rowCaptures line with
    | none => simp [hc] at hl
    | some c =>
      obtain ⟨ex, st, d, su⟩ := c
      obtain ⟨m, hm⟩ := ih (fun l hl2 => h l (by simp [hl2]))
        (insertAssoc acc d ⟨ex, trimStr st, trimStr su⟩)
      exact ⟨m, by simp only [collectRows, hc]; exact hm⟩

/-- The first line failing the row pattern aborts `collectRows` with an
error carrying that exact line. -/
lemma collectRows_error (bad : String) (hbad : rowCaptures bad = none)
    (post : List String) :
    ∀ pre acc, (∀ l ∈ pre, (rowCaptures l).isSome) →
      collectRows (pre ++ bad :: post) acc = .error ⟨bad⟩ := by
  intro pre
  induction pre with
  | nil =>
    intro acc _
    simp [collectRows, hbad]
  | cons p pre ih =>
    intro acc hp
    have h1 : (rowCaptures p).isSome := hp p (by simp)
    cases hc : rowCaptures p with
    | none => simp [hc] at h1
    | some c =>
      obtain ⟨ex, st, d, su⟩ := c
      simp only [List.cons_append, collectRows, hc]
      exact ih _ (fun l hl => hp l (by simp [hl]))

/-- A line contributing the key makes the last entry for that key exist. -/
lemma lastEntryFor_isSome {lines : List String} {l : String} {ex : Bool}
    {st key su : String} (hl : l ∈ lines)
    (hc : rowCaptures l = some (ex, st, key, su)) :
    (lastEntryFor key lines).isSome := by
  induction lines with
  | nil => cases hl
  | cons a rest ih =>
    cases hr : lastEntryFor key rest with
    | some v => simp [lastEntryFor, hr]
    | none =>
      rcases List.mem_cons.mp hl with h | h
      · subst h
        simp [lastEntryFor, hr, hc]
      · have := ih h
        rw [hr] at this
        simp at this

/-- The path test of the amended ticket claim, rephrased through
`dropPreStr`. -/
lemma specPathZero_eq (p : String) :
    (match p.data with
      | '/' :: 'D' :: ds => ds.all Char.isDigit
      | _ => false)
    = (dropPreStr "/D" p).elim false fun dn => dn.data.all Char.isDigit := by
  cases hd : dropPreStr "/D" p with
  | some dn =>
    have hpath : p.data = '/' :: 'D' :: dn.data := by
      simpa using dropPreStr_eq_some.mp hd
    rw [hpath]
    rfl
  | none =>
    split
    · rename_i ds heq
      exfalso
      have hsome : dropPreStr "/D" p = some (⟨ds⟩ : String) :=
        dropPreStr_eq_some.mpr (by simpa using heq)
      rw [hd] at hsome
      cases hsome
    · rfl

/-- Counting one output value of a `filterMap` counts the inputs mapped to
it. -/
lemma count_filterMap_eq_countP (f : String → Option String) (t : String)
    (l : List String) :
    (l.filterMap f).count t = l.countP fun s => f s = some t := by
  induction l with
  | nil => rfl
  | cons a l ih =>
    cases hf : f a with
    | none => simp [List.filterMap_cons, hf, List.countP_cons, ih]
    | some b =>
      by_cases hb : b = t
      · subst hb
        simp [List.filterMap_cons, hf, List.countP_cons, List.count_cons, ih]
      · simp [List.filterMap_cons, hf, List.countP_cons, List.count_cons, hb, ih]

/-- C1 counterexample: on the line `Differential Revision: https://host/D`
the Ticket Reference Parser returns the ticket `D`, although the URL path is
`/D` followed by zero digits, so the claimed condition (one or more digits)
is false there: the stated equivalence fails. -/
theorem get_differential_revision_spec_counterexample :
    get_differential_revision "Differential Revision: https://host/D" = some "D" ∧
    (get_differential_revision "Differential Revision: https://host/D").isSome = true ∧
    specTicketCond "Differential Revision: https://host/D" = false := by
  refine ⟨by rfl, by rfl, by rfl⟩

/-- C1 (amended): the Ticket Reference Parser returns a ticket identifier
if and only if the line begins with the exact prefix `Differential
Revision:`, the remainder after trimming parses as an absolute URL, and that
URL's path component is exactly `/D` followed by zero or more ASCII digits
and nothing else; in every other case it returns no result. -/
theorem get_differential_revision_iff_spec (line : String) :
    (get_differential_revision line).isSome = specTicketCondZero line := by
  unfold get_differential_revision specTicketCondZero
  cases hp : dropPreStr "Differential Revision:" line with
  | none => rfl
  | some url_str =>
    show (match Url.parse (trimStr url_str) with
      | none => none
      | some url =>
        match dropPreStr "/D" url.path with
        | none => none
        | some diff_number =>
          if diff_number.data.all Char.isDigit then
            some (⟨url.path.data.drop 1⟩ : String)
          else none).isSome =
      match Url.parse (trimStr url_str) with
      | none => false
      | some url =>
        match url.path.data with
        | '/' :: 'D' :: ds => ds.all Char.isDigit
        | _ => false
    cases hu : Url.parse (trimStr url_str) with
    | none => rfl
    | some url =>
      show (match dropPreStr "/D" url.path with
        | none => none
        | some diff_number =>
          if diff_number.data.all Char.isDigit then
            some (⟨url.path.data.drop 1⟩ : String)
          else none).isSome =
        match url.path.data with
        | '/' :: 'D' :: ds => ds.all Char.isDigit
        | _ => false
      rw [specPathZero_eq]
      cases hd : dropPreStr "/D" url.path with
      | none => rfl
      | some dn =>
        show (if dn.data.all Char.isDigit then
            some (⟨url.path.data.drop 1⟩ : String)
          else none).isSome =
          (some dn).elim false fun dn => dn.data.all Char.isDigit
        cases hdig : dn.data.all Char.isDigit <;> simp [hdig, Option.elim]

/-- C3: the Branch Diff Resolver returns the reversal of the newest-first
matches, and on the concrete newest-first log `[C3, C2, C1]` where only C2
and C1 carry ticket lines D20 and D10, the result is `[D10, D20]`. -/
theorem get_branch_diffs_reversed (bodies : List String) :
    get_branch_diffs bodies =
      (bodies.filterMap get_differential_revision).reverse ∧
    get_branch_diffs ["Commit three", "Commit two",
      "Differential Revision: https://host/D20", "Commit one",
      "Differential Revision: https://host/D10"] = ["D10", "D20"] := by
  constructor
  · unfold get_branch_diffs
    exact List.filterMap_reverse _ _
  · rfl

/-- C5: the exact sentinel output `You have no open Differential revisions.`
yields the empty mapping, not an error. -/
theorem get_arc_info_sentinel :
    get_arc_info ["You have no open Differential revisions."] =
      Except.ok [] := by
  rfl

/-- C6: the Branch Diff Resolver does not deduplicate: each ticket
identifier occurs in the output once per input line referencing it, and two
commits both referencing D5 yield D5 twice. -/
theorem get_branch_diffs_no_dedup (bodies : List String) (t : String) :
    (get_branch_diffs bodies).count t =
      (bodies.countP fun s => get_differential_revision s = some t) ∧
    get_branch_diffs ["Commit two", "Differential Revision: https://host/D5",
      "Commit one", "Differential Revision: https://host/D5"] =
      ["D5", "D5"] := by
  constructor
  · unfold get_branch_diffs
    rw [List.filterMap_reverse, List.count_reverse]
    exact count_filterMap_eq_countP _ _ _
  · rfl

/-- C9: the line `Differential Revision: https://host/D1234` yields exactly
the identifier `D1234`. -/
theorem get_differential_revision_example :
    get_differential_revision "Differential Revision: https://host/D1234" =
      some "D1234" := by
  rfl

/-- C10: the Ticket Reference Parser examines only the URL's path
component: once the prefix is stripped and the trimmed remainder parses,
the result is a function of the parsed path alone, so a query string or
fragment does not change the identifier; concretely
`Differential Revision: https://host/D7?x=1#frag` yields `D7`. -/
theorem get_differential_revision_path_only :
    (∀ line url_str url,
      dropPreStr "Differential Revision:" line = some url_str →
      Url.parse (trimStr url_str) = some url →
      get_differential_revision line = pathTicket url.path) ∧
    get_differential_revision "Differential Revision: https://host/D7?x=1#frag" =
      some "D7" := by
  constructor
  · intro line url_str url h1 h2
    unfold get_differential_revision pathTicket
    simp only [h1, h2]
  · rfl

/-- C10 witness: the general part applied at the concrete query-and-fragment
line, whose URL parses with path `/D7`, query `x=1` and fragment `frag`. -/
theorem get_differential_revision_path_only_witness :
    dropPreStr "Differential Revision:"
      "Differential Revision: https://host/D7?x=1#frag" =
      some " https://host/D7?x=1#frag" ∧
    Url.parse (trimStr " https://host/D7?x=1#frag") =
      some ⟨"https", "host", "/D7", some "x=1", some "frag"⟩ ∧
    get_differential_revision "Differential Revision: https://host/D7?x=1#frag" =
      pathTicket "/D7" := by
  refine ⟨by rfl, by rfl, ?_⟩
  exact get_differential_revision_path_only.1
    "Differential Revision: https://host/D7?x=1#frag"
    " https://host/D7?x=1#frag" ⟨"https", "host", "/D7", some "x=1", some "frag"⟩
    (by rfl) (by rfl)

/-- C2: a line matching the row structure produces exactly its map entry:
the existence flag is true exactly when the leading `* ` marker is present,
the status and summary captures are trimmed, and the entry is keyed by the
captured ticket identifier; the two concrete rows behave as specified. -/
theorem get_arc_info_row_entry :
    (∀ line ex st d su, rowCaptures line = some (ex, st, d, su) →
      get_arc_info [line] = .ok [(d, ⟨ex, trimStr st, trimStr su⟩)] ∧
      ex = hasMarker line) ∧
    get_arc_info ["* Needs Review D42: Fix bug"] =
      .ok [("D42", ⟨true, "Needs Review", "Fix bug"⟩)] ∧
    get_arc_info ["Closed D7: Old work"] =
      .ok [("D7", ⟨false, "Closed", "Old work"⟩)] := by
  refine ⟨?_, by rfl, by rfl⟩
  intro line ex st d su h
  constructor
  · have hs : line ≠ "You have no open Differential revisions." := by
      intro hc
      rw [hc] at h
      have hnone : rowCaptures "You have no open Differential revisions." = none := by
        rfl
      rw [hnone] at h
      cases h
    unfold get_arc_info
    rw [if_neg (by simp [hs])]
    simp [collectRows, h, insertAssoc]
  · exact rowCaptures_fst h

/-- C2 witness: the general row property applied at the concrete row
`* Needs Review D42: Fix bug`. -/
theorem get_arc_info_row_entry_witness :
    rowCaptures "* Needs Review D42: Fix bug" =
      some (true, "Needs Review", "D42", "Fix bug") ∧
    (get_arc_info ["* Needs Review D42: Fix bug"] =
      .ok [("D42", ⟨true, trimStr "Needs Review", trimStr "Fix bug"⟩)] ∧
     true = hasMarker "* Needs Review D42: Fix bug") :=
  ⟨by rfl, get_arc_info_row_entry.1 "* Needs Review D42: Fix bug"
    true "Needs Review" "D42" "Fix bug" (by rfl)⟩

/-- C4: in a non-sentinel input, the first line failing the row structure
makes parsing fail with a `TableParseError` carrying exactly that line; it
is not silently skipped. -/
theorem get_arc_info_bad_row_error (pre : List String) (bad : String)
    (post : List String)
    (hsent : pre ++ bad :: post ≠ ["You have no open Differential revisions."])
    (hpre : ∀ l ∈ pre, (rowCaptures l).isSome)
    (hbad : rowCaptures bad = none) :
    get_arc_info (pre ++ bad :: post) = .error ⟨bad⟩ := by
  unfold get_arc_info
  rw [if_neg hsent]
  exact collectRows_error bad hbad post pre [] hpre

/-- C4 witness: a table whose second row lacks the `D<digits>:` separator
fails with the error carrying that row. -/
theorem get_arc_info_bad_row_error_witness :
    (["* Needs Review D42: Fix bug"] ++ "no separator here" :: [] ≠
      ["You have no open Differential revisions."]) ∧
    (∀ l ∈ ["* Needs Review D42: Fix bug"], (rowCaptures l).isSome) ∧
    rowCaptures "no separator here" = none ∧
    get_arc_info (["* Needs Review D42: Fix bug"] ++ "no separator here" :: []) =
      .error ⟨"no separator here"⟩ := by
  refine ⟨by decide, by decide, by rfl, ?_⟩
  exact get_arc_info_bad_row_error ["* Needs Review D42: Fix bug"]
    "no separator here" [] (by decide) (by decide) (by rfl)

/-- C7 counterexample: an input whose non-empty lines all match the row
pattern but which contains an empty line does not parse: the empty line
fails the row pattern and parsing aborts with a `TableParseError` carrying
the empty line, contradicting the claim that empty lines cause no error. -/
theorem get_arc_info_empty_line_counterexample :
    (rowCaptures "Closed D7: Old work").isSome = true ∧
    (rowCaptures "* Accepted D8: New work").isSome = true ∧
    get_arc_info ["Closed D7: Old work", "", "* Accepted D8: New work"] =
      .error ⟨""⟩ :=
  ⟨by rfl, by rfl, by rfl⟩

/-- C7 (amended): the Review Status Table Parser requires every line, empty
lines included, to match the row structure: a non-sentinel input parses
successfully when all its lines match, and an empty line never matches the
row structure (so it is a parse failure, not a skip). -/
theorem get_arc_info_all_lines_matching (lines : List String)
    (hsent : lines ≠ ["You have no open Differential revisions."])
    (hall : ∀ l ∈ lines, (rowCaptures l).isSome) :
    (∃ m, get_arc_info lines = .ok m) ∧ rowCaptures "" = none := by
  refine ⟨?_, by rfl⟩
  unfold get_arc_info
  rw [if_neg hsent]
  exact collectRows_ok lines hall []

/-- C7 amended witness: two matching rows parse successfully. -/
theorem get_arc_info_all_lines_matching_witness :
    (["Closed D7: Old work", "* Accepted D8: New work"] ≠
      ["You have no open Differential revisions."]) ∧
    (∀ l ∈ ["Closed D7: Old work", "* Accepted D8: New work"],
      (rowCaptures l).isSome) ∧
    ((∃ m, get_arc_info ["Closed D7: Old work", "* Accepted D8: New work"] =
      .ok m) ∧ rowCaptures "" = none) :=
  ⟨by decide, by decide,
    get_arc_info_all_lines_matching
      ["Closed D7: Old work", "* Accepted D8: New work"]
      (by decide) (by decide)⟩

/-- C8: duplicate ticket rows are merged last-write-wins: when every line
matches and some line captures the key, parsing succeeds, the resulting
mapping binds that key exactly once, and the binding is the (trimmed) entry
of the last row capturing the key. -/
theorem get_arc_info_last_write_wins (lines : List String)
    (hsent : lines ≠ ["You have no open Differential revisions."])
    (hall : ∀ l ∈ lines, (rowCaptures l).isSome)
    (l : String) (ex : Bool) (st key su : String)
    (hl : l ∈ lines) (hc : rowCaptures l = some (ex, st, key, su)) :
    ∃ m, get_arc_info lines = .ok m ∧ countKey m key = 1 ∧
      lookupA m key = lastEntryFor key lines := by
  obtain ⟨m, hm⟩ := collectRows_ok lines hall []
  have hga : get_arc_info lines = .ok m := by
    unfold get_arc_info
    rw [if_neg hsent]
    exact hm
  have hlook : lookupA m key = lastEntryFor key lines := by
    rw [collectRows_lookup lines [] m key hm]
    cases hle : lastEntryFor key lines with
    | none => rfl
    | some v => rfl
  have hshape := collectRows_shape lines [] m hm (fun key => rfl) key
  have hsome : (lastEntryFor key lines).isSome := lastEntryFor_isSome hl hc
  refine ⟨m, hga, ?_, hlook⟩
  rw [hshape, hlook, if_pos hsome]

/-- C8 witness: two rows for ticket D7; the map binds D7 once, to the entry
of the later row. -/
theorem get_arc_info_last_write_wins_witness :
    (["Closed D7: a", "* Accepted D7: b"] ≠
      ["You have no open Differential revisions."]) ∧
    (∀ l ∈ ["Closed D7: a", "* Accepted D7: b"], (rowCaptures l).isSome) ∧
    rowCaptures "Closed D7: a" = some (false, "Closed", "D7", "a") ∧
    ∃ m, get_arc_info ["Closed D7: a", "* Accepted D7: b"] = .ok m ∧
      countKey m "D7" = 1 ∧
      lookupA m "D7" = lastEntryFor "D7" ["Closed D7: a", "* Accepted D7: b"] := by
  refine ⟨by decide, by decide, by rfl, ?_⟩
  exact get_arc_info_last_write_wins ["Closed D7: a", "* Accepted D7: b"]
    (by decide) (by decide) "Closed D7: a" false "Closed" "D7" "a"
    (by decide) (by rfl)
